import Mathlib

/-!
Verification of the typed-value marshalling core of mksqlite (mksqlite.cpp),
as a shallow embedding in Lean.

Bytes are modelled as `Nat` values (< 256 where the C code guarantees it),
C byte buffers as `List Nat`, null-terminated C strings as the list of the
bytes before the terminator.  Machine integers are modelled as `Nat`/`Int`
with explicit `% 2^w` at the points where the C code truncates.
-/

namespace Mksqlite

/-! ## Charset codec: `utf2latin` / `latin2utf` (mksqlite.cpp lines 255-316)

Both C functions walk a null-terminated byte string `s`.  With a `buffer`
they write the converted bytes plus a final terminator; with `buffer = NULL`
they only count.  In both modes the returned `cnt` is incremented once per
converted output byte and once more for the terminator written after the
loop.

`utf2latin` consumes one byte `< 128` unchanged, and otherwise consumes two
bytes `s[0]`, `s[1]`, emitting `(s[0] << 6) | (s[1] & 63)` truncated to a
byte.  If a byte `>= 128` is the last content byte, the C code reads the
terminator as `s[1]` and then advances `s` past the terminator into
unowned memory; the model stops there instead, so all theorems about
`utf2latin` carry a well-formedness hypothesis (`utfOk`) ruling that case
out. -/

/-- Content bytes produced by `utf2latin` (the bytes written before the
final terminator). -/
def utf2latin : List Nat → List Nat
  | [] => []
  | a :: rest =>
    if a < 128 then
      a :: utf2latin rest
    else
      match rest with
      | [] => [(a <<< 6) % 256]
      | b :: rest2 => ((a <<< 6) ||| (b &&& 63)) % 256 :: utf2latin rest2

/-- The `cnt` value returned by `utf2latin` (same in both calling modes):
one per output byte plus one for the terminator. -/
def utf2latinCnt : List Nat → Nat
  | [] => 1
  | a :: rest =>
    if a < 128 then
      1 + utf2latinCnt rest
    else
      match rest with
      | [] => 2
      | _ :: rest2 => 1 + utf2latinCnt rest2

/-- Bytes written into the destination buffer by `utf2latin` when a buffer
is supplied (content plus terminator). -/
def utf2latinOut : List Nat → List Nat
  | [] => [0]
  | a :: rest =>
    if a < 128 then
      a :: utf2latinOut rest
    else
      match rest with
      | [] => [(a <<< 6) % 256, 0]
      | b :: rest2 => ((a <<< 6) ||| (b &&& 63)) % 256 :: utf2latinOut rest2

/-- Content bytes produced by `latin2utf`: a byte `< 128` passes through,
a byte `b >= 128` becomes the pair `128+64+(b>>6)`, `128+(b&63)`. -/
def latin2utf : List Nat → List Nat
  | [] => []
  | a :: rest =>
    if a < 128 then
      a :: latin2utf rest
    else
      (128 + 64 + (a >>> 6)) :: (128 + (a &&& 63)) :: latin2utf rest

/-- The `cnt` value returned by `latin2utf`. -/
def latin2utfCnt : List Nat → Nat
  | [] => 1
  | a :: rest =>
    if a < 128 then
      1 + latin2utfCnt rest
    else
      2 + latin2utfCnt rest

/-- Bytes written into the destination buffer by `latin2utf`. -/
def latin2utfOut : List Nat → List Nat
  | [] => [0]
  | a :: rest =>
    if a < 128 then
      a :: latin2utfOut rest
    else
      (128 + 64 + (a >>> 6)) :: (128 + (a &&& 63)) :: latin2utfOut rest

/-- Well-formed input for `utf2latin`: every byte `>= 128` is followed by a
continuation byte, so the C code never consumes the terminator as `s[1]`. -/
def utfOk : List Nat → Bool
  | [] => true
  | a :: rest =>
    if a < 128 then
      utfOk rest
    else
      match rest with
      | [] => false
      | _ :: rest2 => utfOk rest2

/-- Bytes of a C string body: nonzero (no interior terminator) and < 256. -/
def bytesOk (l : List Nat) : Prop := ∀ b ∈ l, 0 < b ∧ b < 256

instance bytesOkDecidable (l : List Nat) : Decidable (bytesOk l) := by
  unfold bytesOk
  infer_instance

/-! ## MATLAB class ids and element sizes

`mxClassID` values as used by the MEX API (the blob header stores them
verbatim, mksqlite.cpp line 1044).  `elementSize` is `mxGetElementSize`
for real arrays of each class. -/

def mxUNKNOWN : Nat := 0
def mxCELL : Nat := 1
def mxSTRUCT : Nat := 2
def mxLOGICAL : Nat := 3
def mxCHAR : Nat := 4
def mxVOID : Nat := 5
def mxDOUBLE : Nat := 6
def mxSINGLE : Nat := 7
def mxINT8 : Nat := 8
def mxUINT8 : Nat := 9
def mxINT16 : Nat := 10
def mxUINT16 : Nat := 11
def mxINT32 : Nat := 12
def mxUINT32 : Nat := 13
def mxINT64 : Nat := 14
def mxUINT64 : Nat := 15
def mxFUNCTION : Nat := 16

/-- `mxGetElementSize` in bytes per element (MATLAB chars are 2 bytes). -/
def elementSize (clsid : Nat) : Nat :=
  if clsid = mxLOGICAL then 1
  else if clsid = mxCHAR then 2
  else if clsid = mxDOUBLE then 8
  else if clsid = mxSINGLE then 4
  else if clsid = mxINT8 ∨ clsid = mxUINT8 then 1
  else if clsid = mxINT16 ∨ clsid = mxUINT16 then 2
  else if clsid = mxINT32 ∨ clsid = mxUINT32 then 4
  else if clsid = mxINT64 ∨ clsid = mxUINT64 then 8
  else 0

/-- The class ids accepted by the typed-BLOB `switch` statements
(mksqlite.cpp lines 1020-1037 and 1388-1405). -/
def tbhSupported (clsid : Nat) : Bool :=
  clsid = mxLOGICAL ∨ clsid = mxCHAR ∨ clsid = mxDOUBLE ∨ clsid = mxSINGLE ∨
  clsid = mxINT8 ∨ clsid = mxUINT8 ∨ clsid = mxINT16 ∨ clsid = mxUINT16 ∨
  clsid = mxINT32 ∨ clsid = mxUINT32 ∨ clsid = mxINT64 ∨ clsid = mxUINT64

/-! ## Typed-BLOB codec (mksqlite.cpp lines 81-96, 1013-1063, 1356-1413)

The `typed_BLOB_header` struct layout on the 4-byte-`mwSize` platforms the
source asserts (line 61), little endian, with natural C alignment:

  offset  0..12  `char magic[13]`        ("mkSQLite.tbh" plus terminator)
  offset  13     padding (never written by the encoder; modelled as 0)
  offset  14..15 `int16_t ver`           (= sizeof(typed_BLOB_header) = 36)
  offset  16..19 `int32_t clsid`
  offset  20..30 `char platform[11]`     (strncpy writes 10 bytes,
                                          platform[10] never written;
                                          modelled as 0)
  offset  31     `char endian`
  offset  32..35 `int32_t sizeDims[0]`   (number of dimensions)
  offset  36..   one little-endian `int32` per dimension, then the raw
                 element payload.

`TBH_DATA_OFFSET(nDims) = 36 + 4*nDims + 4` is the offset of the payload
relative to `sizeDims[0]` at offset 32, i.e. payload starts at byte
`36 + 4*nDims`. -/

/-- The twelve characters of `TBH_MAGIC` ("mkSQLite.tbh"), without the
terminator. -/
def tbhMagic : List Nat := [109, 107, 83, 81, 76, 105, 116, 101, 46, 116, 98, 104]

/-- Little-endian bytes of a value truncated to `int16` width. -/
def le16 (v : Nat) : List Nat := [v % 256, v / 256 % 256]

/-- Little-endian bytes of a value truncated to `int32`/`mwSize` width
(the bit pattern of the C cast `(int32_t) v`). -/
def le32 (v : Nat) : List Nat :=
  [v % 256, v / 256 % 256, v / 65536 % 256, v / 16777216 % 256]

/-- Byte `i` of a buffer; reads past the end give 0 (the C code would read
out of bounds there, see the comments at the use sites). -/
def byteAt (l : List Nat) (i : Nat) : Nat := (l.drop i).headD 0

/-- `int16` read, little endian. -/
def readLE16 (l : List Nat) (i : Nat) : Nat := byteAt l i + 256 * byteAt l (i + 1)

/-- `int32`/`mwSize` read, little endian. -/
def readLE32 (l : List Nat) (i : Nat) : Nat :=
  byteAt l i + 256 * byteAt l (i + 1) + 65536 * byteAt l (i + 2) +
    16777216 * byteAt l (i + 3)

/-- `MQSQLITE_MAX_BLOB_SIZE = (mwSize) INT32_MAX` where this source defines
`INT32_MAX` as `0x3FFFFFFF` when the toolchain does not (lines 53-58). -/
def mqMaxBlobSize : Nat := 0x3FFFFFFF

/-- `sizeof(typed_BLOB_header)` and the version field value (line 1043). -/
def tbhVersion : Nat := 36

/-- Payload offset `TBH_DATA_OFFSET(nDims)` measured from the blob start. -/
def tbhDataStart (nDims : Nat) : Nat := 36 + 4 * nDims

/-- `sizeBlob` as the encoder computes it (line 1015): `mwSize` (32-bit)
addition of the data offset and the `mwSize`-cast of
`cntElements * szElement`. -/
def sizeBlobC (nDims cntsz : Nat) : Nat :=
  (tbhDataStart nDims % 4294967296 + cntsz % 4294967296) % 4294967296

/-- `strncpy( tbh->platform, g_platform, sizeof( g_platform ) - 1 )`: ten
bytes of the platform name zero-padded, plus `platform[10]` which is never
written (modelled as 0). -/
def platformField (p : List Nat) : List Nat :=
  (List.range 10).map (fun k => p.getD k 0) ++ [0]

/-- Decode/encode error kinds, named by check site following the spec's
taxonomy.  In the C code `unsupportedVersion` and `badMagic` both surface
as `MSG_UNSUPPTBH`, `sizeMismatch` as `MSG_INVALIDARG`, `blobTooBig` as
`MSG_BLOBTOOBIG`, `unsupportedType` as `MSG_UNSUPPVARTYPE`,
`invalidArg` as `MSG_INVALIDARG`, `unexpectedArgs` as
`MSG_UNEXPECTEDARG`. -/
inductive MkErr where
  | unsupportedVersion
  | badMagic
  | sizeMismatch
  | unsupportedType
  | blobTooBig
  | invalidArg
  | unexpectedArgs
  deriving DecidableEq, Repr

instance exceptDecEq {ε α : Type} [DecidableEq ε] [DecidableEq α] :
    DecidableEq (Except ε α) := fun a b =>
  match a, b with
  | .ok x, .ok y =>
    if h : x = y then .isTrue (by rw [h]) else .isFalse (by simp [h])
  | .error x, .error y =>
    if h : x = y then .isTrue (by rw [h]) else .isFalse (by simp [h])
  | .ok _, .error _ => .isFalse (by simp)
  | .error _, .ok _ => .isFalse (by simp)

/-- The complete header bytes written by the encoder (lines 1042-1053):
magic via `strcpy`, `ver = sizeof(*tbh)`, `clsid`, platform via `strncpy`,
endian char, and `sizeDims[0] = item_nDims`.  The padding byte at offset
13 and `platform[10]` are not written by the C code (`sqlite3_malloc`
leaves them arbitrary); the model fixes them to 0, which no decoder path
ever reads. -/
def tbhHeader (p : List Nat) (e clsid nDims : Nat) : List Nat :=
  tbhMagic ++ [0] ++ [0] ++ le16 tbhVersion ++ le32 clsid ++
    platformField p ++ [e] ++ le32 nDims

/-- Typed-BLOB encoder (lines 1013-1056): computes `sizeBlob`, rejects
oversized blobs, rejects unsupported classes, then lays out header,
dimension sizes and the raw element payload verbatim (no byte swapping).
`p`/`e` are the process globals `g_platform`/`g_endian[0]`; `data` is the
raw element byte buffer of the array (`cntElements * szElement` bytes). -/
def tblobEncode (p : List Nat) (e clsid : Nat) (dims : List Nat)
    (data : List Nat) : Except MkErr (List Nat) :=
  if mqMaxBlobSize < sizeBlobC dims.length (dims.prod * elementSize clsid) then
    .error .blobTooBig
  else if ¬tbhSupported clsid then .error .unsupportedType
  else .ok (tbhHeader p e clsid dims.length ++ (dims.map le32).flatten ++ data)

/-- First twelve stored magic bytes, the ones `strncmp( tbh->magic,
TBH_MAGIC, strlen( TBH_MAGIC ) )` compares (line 1383). -/
def magicOf (blob : List Nat) : List Nat := (List.range 12).map (byteAt blob)

/-- `clsid = (mxClassID) tbh->clsid` as the decoder reads it (line 1367). -/
def tblobClsid (blob : List Nat) : Nat := readLE32 blob 16

/-- `item_nDims = tbh->sizeDims[0]` (line 1370). -/
def tblobNDims (blob : List Nat) : Nat := readLE32 blob 32

/-- The dimension sizes `tbh->sizeDims[1..nDims]` (lines 1371, 1407). -/
def tblobDims (blob : List Nat) : List Nat :=
  (List.range (tblobNDims blob)).map (fun j => readLE32 blob (36 + 4 * j))

/-- `sizeBlob = m_Size - TBH_DATA_OFFSET( item_nDims )` (line 1372). -/
def tblobSizeBlob (blob : List Nat) : Int :=
  (blob.length : Int) - (tbhDataStart (tblobNDims blob) : Int)

/-- Typed-BLOB decoder (lines 1356-1413): version check first (line 1361),
then the magic comparison over `strlen(TBH_MAGIC)` = 12 characters
(line 1383; that site also re-tests the version, redundantly), the
supported-class switch (line 1388), and the size check
`sizeBlob == numElements * elementSize` (line 1409).  The platform and
endianness comparison at line 1374 only raises a non-fatal warning and is
not modelled.  Dimensions are read back as `mwSize` (unsigned 32-bit)
values. -/
def tblobDecode (blob : List Nat) : Except MkErr (Nat × List Nat × List Nat) :=
  if readLE16 blob 14 ≠ tbhVersion then .error .unsupportedVersion
  else if magicOf blob ≠ tbhMagic then .error .badMagic
  else if ¬tbhSupported (tblobClsid blob) then .error .unsupportedType
  else if tblobSizeBlob blob ≠ ((tblobDims blob).prod * elementSize (tblobClsid blob) : Nat)
    then .error .sizeMismatch
  else .ok (tblobClsid blob, tblobDims blob, blob.drop (tbhDataStart (tblobNDims blob)))

/-! ## Parameter binder (mksqlite.cpp lines 936-1124)

One SQL command invocation carries `bind_names_count` placeholders
(`sqlite3_bind_parameter_count`) and `NumArgs` trailing MATLAB values.
The values are first collected into the cell array `pArgs` (positional
list, padded with empty logical matrices; or the contents of a single
wrapped cell array), then bound slot by slot. -/

/-- The global option flags and platform globals relevant to binding. -/
structure Config where
  useTypedBlobs : Bool
  convertUTF8 : Bool
  platform : List Nat
  endian : Nat
  deriving DecidableEq, Repr

/-- One non-cell MATLAB array as the binder inspects it: class id,
dimensions, complex flag, the char data (for `mxCHAR_CLASS` values, as the
byte string `mxArrayToString` yields), the raw element bytes
(`mxGetData`, `cntElements * szElement` bytes), and the scalar numeric
value (`mxGetScalar`; only integral values are modelled). -/
structure MxBase where
  clsid : Nat
  dims : List Nat
  complex : Bool
  text : List Nat
  data : List Nat
  val : Int
  deriving DecidableEq, Repr

/-- `mxGetNumberOfElements`. -/
def MxBase.numel (b : MxBase) : Nat := b.dims.prod

/-- A binder argument: a plain array, or a cell array (whose non-empty
contents only matter when it is the single wrapped parameter
collection). -/
inductive MxArg where
  | base (b : MxBase)
  | cell (items : List MxBase)
  deriving DecidableEq, Repr

/-- `mxIsCell( prhs[FirstArg] )` for the wrapped-collection test. -/
def isCellArg : MxArg → Bool
  | .base _ => false
  | .cell _ => true

/-- `mxCreateLogicalMatrix( 0, 0 )`: the empty placeholder stored for
arguments that were not passed (line 961). -/
def emptyBase : MxBase := ⟨mxLOGICAL, [0, 0], false, [], [], 0⟩

/-- What got bound into one SQL parameter slot.  `real` stands for
`sqlite3_bind_double` (the floating value itself is not modelled);
`int` carries the value passed to `sqlite3_bind_int` (the C cast
`(int) mxGetScalar(item)` of an integral scalar). -/
inductive Slot where
  | null
  | int (v : Int)
  | real
  | text (s : List Nat)
  | blobRaw (d : List Nat)
  | blobTyped (d : List Nat)
  deriving DecidableEq, Repr

/-- The classes of the scalar-integer `switch` cases at lines 1069-1075.
`mxINT64_CLASS` and `mxUINT64_CLASS` are absent there. -/
def scalarIntClass (c : Nat) : Bool :=
  c = mxLOGICAL ∨ c = mxINT8 ∨ c = mxUINT8 ∨ c = mxINT16 ∨ c = mxINT32 ∨
    c = mxUINT16 ∨ c = mxUINT32

/-- Binding of one collected parameter (the body of the per-parameter
loop, lines 982-1123): empty values are omitted (bound as NULL by
sqlite), complex/cell/struct values are rejected, multi-element non-char
values become raw or typed blobs, scalars dispatch on their class, char
values bind as text after optional charset conversion. -/
def bindArg (cfg : Config) : MxArg → Except MkErr Slot
  | .cell items =>
    if items.length = 0 then .ok .null else .error .unsupportedType
  | .base b =>
    if b.numel = 0 then .ok .null
    else if b.complex ∨ b.clsid = mxCELL ∨ b.clsid = mxSTRUCT then
      .error .unsupportedType
    else if 1 < b.numel ∧ b.clsid ≠ mxCHAR then
      if ¬cfg.useTypedBlobs then .ok (.blobRaw b.data)
      else
        match tblobEncode cfg.platform cfg.endian b.clsid b.dims b.data with
        | .error msg => .error msg
        | .ok bytes => .ok (.blobTyped bytes)
    else if scalarIntClass b.clsid then .ok (.int b.val)
    else if b.clsid = mxDOUBLE ∨ b.clsid = mxSINGLE then .ok .real
    else if b.clsid = mxCHAR then
      .ok (.text (if cfg.convertUTF8 then latin2utf b.text else b.text))
    else .error .invalidArg

/-- Collecting the parameter cell array `pArgs` (lines 936-977): no
arguments are allowed when the statement has no placeholders; a
positional list must not be longer than the placeholder count and is
padded with empty placeholders; a wrapped cell collection must be the
only argument. -/
def collectParams (bindCount : Nat) (args : List MxArg) :
    Except MkErr (List MxArg) :=
  if bindCount = 0 ∧ 0 < args.length then .error .unexpectedArgs
  else
    match args with
    | [] => .ok (List.replicate bindCount (MxArg.base emptyBase))
    | MxArg.cell items :: rest =>
      if 0 < rest.length then .error .unexpectedArgs
      else .ok (items.map MxArg.base)
    | _ :: _ =>
      if bindCount < args.length then .error .unexpectedArgs
      else .ok (args ++ List.replicate (bindCount - args.length) (MxArg.base emptyBase))

/-- The per-parameter loop (lines 979-1124): slot `iParam` binds the
`iParam`-th collected value; `mxGetCell` past the end of a short wrapped
collection yields NULL, which the loop skips exactly like an empty value
(modelled by the `emptyBase` default).  The first failing bind aborts the
whole call. -/
def bindSlots (cfg : Config) : Nat → List MxArg → Except MkErr (List Slot)
  | 0, _ => .ok []
  | n + 1, params =>
    match bindArg cfg (params.headD (MxArg.base emptyBase)) with
    | .error msg => .error msg
    | .ok s =>
      match bindSlots cfg n params.tail with
      | .error msg => .error msg
      | .ok rest => .ok (s :: rest)

/-- Whole-statement parameter binding: collect, then bind each slot. -/
def bindAll (cfg : Config) (bindCount : Nat) (args : List MxArg) :
    Except MkErr (List Slot) :=
  match collectParams bindCount args with
  | .error msg => .error msg
  | .ok params => bindSlots cfg bindCount params

/-! ## Result column names (mksqlite.cpp lines 1140-1213)

Column names are byte strings.  Sanitization replaces every
non-alphanumeric byte by `_` (C `isalnum` in the default locale, i.e.
ASCII digits and letters).  With `check4uniquefields` on, later
duplicates get `_1`..`_99` suffixes, each candidate re-checked for
uniqueness against all current names. -/

/-- `isalnum` over ASCII. -/
def isalnumByte (c : Nat) : Bool :=
  (48 ≤ c ∧ c ≤ 57) ∨ (65 ≤ c ∧ c ≤ 90) ∨ (97 ≤ c ∧ c ≤ 122)

/-- The sanitization loop at lines 1150-1157: non-alphanumeric bytes
become `_` (95). -/
def sanitizeName (s : List Nat) : List Nat :=
  s.map (fun c => if isalnumByte c then c else 95)

/-- Decimal digit bytes of a number, as `sprintf("%d")` renders it for
nonnegative values (fuel-based structural recursion so that it reduces;
`fuel ≥ k` always suffices because the value shrinks tenfold per step). -/
def natDigitsAux : Nat → Nat → List Nat
  | 0, k => [48 + k % 10]
  | fuel + 1, k =>
    if k < 10 then [48 + k]
    else natDigitsAux fuel (k / 10) ++ [48 + k % 10]

def natDigits (k : Nat) : List Nat := natDigitsAux k k

/-- `sprintf(newcolumnname, "%s_%d", fieldnames[jCol], k)` (line 1182). -/
def candidateName (base : List Nat) (k : Nat) : List Nat :=
  base ++ 95 :: natDigits k

/-- The suffix search loop at lines 1177-1197: try `k = 1..99`, return the
first `k` whose candidate collides with no current name (the `lCol` scan
covers all `ncol` names); `none` models `k == 100`. -/
def findSuffix (names : List (List Nat)) (base : List Nat) : Option Nat :=
  ((List.range 99).map (fun k => k + 1)).find?
    (fun k => decide (candidateName base k ∉ names))

/-- One inner-loop body (lines 1168-1210): when names `i` and `j`
currently compare equal, rename `j` to the first free suffixed candidate;
when the suffixes are exhausted only a warning is raised and the name is
kept. -/
def renameAt (names : List (List Nat)) (i j : Nat) : List (List Nat) :=
  if names.getD i [] = names.getD j [] then
    match findSuffix names (names.getD j []) with
    | some k => names.set j (candidateName (names.getD j []) k)
    | none => names
  else names

/-- The inner `jCol` loop: `steps` iterations starting at column `j`. -/
def dedupJ (names : List (List Nat)) (i j steps : Nat) : List (List Nat) :=
  match steps with
  | 0 => names
  | s + 1 => dedupJ (renameAt names i j) i (j + 1) s

/-- The outer `iCol` loop. -/
def dedupI (names : List (List Nat)) (i steps : Nat) : List (List Nat) :=
  match steps with
  | 0 => names
  | s + 1 => dedupI (dedupJ names i (i + 1) (names.length - (i + 1))) (i + 1) s

/-- The full duplicate-resolution pass (lines 1162-1213): `iCol` from `0`
while `iCol < ncol - 1`, `jCol` from `iCol + 1` while `jCol < ncol`. -/
def dedupFieldnames (names : List (List Nat)) : List (List Nat) :=
  dedupI names 0 (names.length - 1)

/-- Column-name processing: sanitization always runs (lines 1140-1158),
duplicate resolution only under `check4uniquefields` (line 1162). -/
def processColumns (check : Bool) (names : List (List Nat)) : List (List Nat) :=
  if check then dedupFieldnames (names.map sanitizeName)
  else names.map sanitizeName

/-- A sample encoder output used by concrete instances below: platform
"GLNXA64", little endian, `mxUINT8_CLASS`, dimensions 2×3, payload bytes
1..6. -/
def blobW : List Nat :=
  [109, 107, 83, 81, 76, 105, 116, 101, 46, 116, 98, 104, 0, 0, 36, 0, 9, 0, 0, 0,
   71, 76, 78, 88, 65, 54, 52, 0, 0, 0, 0, 76, 2, 0, 0, 0, 2, 0, 0, 0, 3, 0, 0, 0,
   1, 2, 3, 4, 5, 6]

/-! ### Charset codec lemmas -/

lemma utf2latin_lt (a : Nat) (rest : List Nat) (h : a < 128) :
    utf2latin (a :: rest) = a :: utf2latin rest := by
  rw [utf2latin.eq_def]
  simp only []
  rw [if_pos h]

lemma utf2latin_geOne (a : Nat) (h : ¬a < 128) :
    utf2latin [a] = [(a <<< 6) % 256] := by
  rw [utf2latin.eq_def]
  simp only []
  rw [if_neg h]

lemma utf2latin_geTwo (a b : Nat) (rest : List Nat) (h : ¬a < 128) :
    utf2latin (a :: b :: rest) = ((a <<< 6) ||| (b &&& 63)) % 256 :: utf2latin rest := by
  rw [utf2latin.eq_def]
  simp only []
  rw [if_neg h]

lemma utf2latinCnt_lt (a : Nat) (rest : List Nat) (h : a < 128) :
    utf2latinCnt (a :: rest) = 1 + utf2latinCnt rest := by
  rw [utf2latinCnt.eq_def]
  simp only []
  rw [if_pos h]

lemma utf2latinCnt_geOne (a : Nat) (h : ¬a < 128) : utf2latinCnt [a] = 2 := by
  rw [utf2latinCnt.eq_def]
  simp only []
  rw [if_neg h]

lemma utf2latinCnt_geTwo (a b : Nat) (rest : List Nat) (h : ¬a < 128) :
    utf2latinCnt (a :: b :: rest) = 1 + utf2latinCnt rest := by
  rw [utf2latinCnt.eq_def]
  simp only []
  rw [if_neg h]

lemma utf2latinOut_lt (a : Nat) (rest : List Nat) (h : a < 128) :
    utf2latinOut (a :: rest) = a :: utf2latinOut rest := by
  rw [utf2latinOut.eq_def]
  simp only []
  rw [if_pos h]

lemma utf2latinOut_geOne (a : Nat) (h : ¬a < 128) :
    utf2latinOut [a] = [(a <<< 6) % 256, 0] := by
  rw [utf2latinOut.eq_def]
  simp only []
  rw [if_neg h]

lemma utf2latinOut_geTwo (a b : Nat) (rest : List Nat) (h : ¬a < 128) :
    utf2latinOut (a :: b :: rest)
      = ((a <<< 6) ||| (b &&& 63)) % 256 :: utf2latinOut rest := by
  rw [utf2latinOut.eq_def]
  simp only []
  rw [if_neg h]

lemma latin2utf_lt (a : Nat) (rest : List Nat) (h : a < 128) :
    latin2utf (a :: rest) = a :: latin2utf rest := by
  rw [latin2utf.eq_def]
  simp only []
  rw [if_pos h]

lemma latin2utf_ge (a : Nat) (rest : List Nat) (h : ¬a < 128) :
    latin2utf (a :: rest)
      = (128 + 64 + (a >>> 6)) :: (128 + (a &&& 63)) :: latin2utf rest := by
  rw [latin2utf.eq_def]
  simp only []
  rw [if_neg h]

lemma latin2utfCnt_lt (a : Nat) (rest : List Nat) (h : a < 128) :
    latin2utfCnt (a :: rest) = 1 + latin2utfCnt rest := by
  rw [latin2utfCnt.eq_def]
  simp only []
  rw [if_pos h]

lemma latin2utfCnt_ge (a : Nat) (rest : List Nat) (h : ¬a < 128) :
    latin2utfCnt (a :: rest) = 2 + latin2utfCnt rest := by
  rw [latin2utfCnt.eq_def]
  simp only []
  rw [if_neg h]

lemma latin2utfOut_lt (a : Nat) (rest : List Nat) (h : a < 128) :
    latin2utfOut (a :: rest) = a :: latin2utfOut rest := by
  rw [latin2utfOut.eq_def]
  simp only []
  rw [if_pos h]

lemma latin2utfOut_ge (a : Nat) (rest : List Nat) (h : ¬a < 128) :
    latin2utfOut (a :: rest)
      = (128 + 64 + (a >>> 6)) :: (128 + (a &&& 63)) :: latin2utfOut rest := by
  rw [latin2utfOut.eq_def]
  simp only []
  rw [if_neg h]

/-- Re-encoding a single-byte character from its 2-byte UTF-8 form:
`(lead << 6) | (cont & 63)` truncated to a byte recovers the byte. -/
lemma byte_roundtrip (a : Nat) (h1 : 128 ≤ a) (h2 : a < 256) :
    (((128 + 64 + (a >>> 6)) <<< 6) ||| ((128 + (a &&& 63)) &&& 63)) % 256 = a := by
  interval_cases a <;> decide

lemma utf2latin_latin2utf (l : List Nat) (h : ∀ b ∈ l, b < 256) :
    utf2latin (latin2utf l) = l := by
  induction l with
  | nil => rfl
  | cons a rest ih =>
    have hrest : ∀ b ∈ rest, b < 256 := fun b hb => h b (by simp [hb])
    by_cases ha : a < 128
    · rw [latin2utf_lt a _ ha, utf2latin_lt a _ ha, ih hrest]
    · rw [latin2utf_ge a _ ha, utf2latin_geTwo _ _ _ (by omega), ih hrest,
          byte_roundtrip a (by omega) (h a (by simp))]

lemma utf2latinCnt_spec : ∀ l : List Nat, utf2latinCnt l = (utf2latin l).length + 1
  | [] => rfl
  | a :: rest => by
    by_cases ha : a < 128
    · rw [utf2latinCnt_lt a _ ha, utf2latin_lt a _ ha, List.length_cons,
          utf2latinCnt_spec rest]
      omega
    · match rest with
      | [] =>
        rw [utf2latinCnt_geOne a ha, utf2latin_geOne a ha]
        rfl
      | b :: rest2 =>
        rw [utf2latinCnt_geTwo a b _ ha, utf2latin_geTwo a b _ ha, List.length_cons,
            utf2latinCnt_spec rest2]
        omega

lemma utf2latinOut_spec : ∀ l : List Nat, utf2latinOut l = utf2latin l ++ [0]
  | [] => rfl
  | a :: rest => by
    by_cases ha : a < 128
    · rw [utf2latinOut_lt a _ ha, utf2latin_lt a _ ha, utf2latinOut_spec rest,
          List.cons_append]
    · match rest with
      | [] => rw [utf2latinOut_geOne a ha, utf2latin_geOne a ha]; rfl
      | b :: rest2 =>
        rw [utf2latinOut_geTwo a b _ ha, utf2latin_geTwo a b _ ha,
            utf2latinOut_spec rest2, List.cons_append]

lemma latin2utfCnt_spec (l : List Nat) : latin2utfCnt l = (latin2utf l).length + 1 := by
  induction l with
  | nil => rfl
  | cons a rest ih =>
    by_cases ha : a < 128
    · rw [latin2utfCnt_lt a _ ha, latin2utf_lt a _ ha, List.length_cons, ih]
      omega
    · rw [latin2utfCnt_ge a _ ha, latin2utf_ge a _ ha, List.length_cons,
          List.length_cons, ih]
      omega

lemma latin2utfOut_spec (l : List Nat) : latin2utfOut l = latin2utf l ++ [0] := by
  induction l with
  | nil => rfl
  | cons a rest ih =>
    by_cases ha : a < 128
    · rw [latin2utfOut_lt a _ ha, latin2utf_lt a _ ha, ih, List.cons_append]
    · rw [latin2utfOut_ge a _ ha, latin2utf_ge a _ ha, ih, List.cons_append,
          List.cons_append]

/-! ### Byte-buffer reading lemmas -/

lemma byteAt_eq_getD (l : List Nat) (i : Nat) : byteAt l i = l.getD i 0 := by
  rw [byteAt, List.headD_eq_head?_getD, List.head?_drop, List.getD_eq_getElem?_getD]

lemma byteAt_prefix_skip (u X : List Nat) (m : Nat) :
    byteAt (u ++ X) (u.length + m) = byteAt X m := by
  unfold byteAt
  rw [← List.drop_drop, List.drop_left]

lemma readLE32_prefix_skip (u X : List Nat) (m : Nat) :
    readLE32 (u ++ X) (u.length + m) = readLE32 X m := by
  unfold readLE32
  rw [show u.length + m + 1 = u.length + (m + 1) by omega,
      show u.length + m + 2 = u.length + (m + 2) by omega,
      show u.length + m + 3 = u.length + (m + 3) by omega,
      byteAt_prefix_skip, byteAt_prefix_skip, byteAt_prefix_skip, byteAt_prefix_skip]

lemma mod32_decomp (a : Nat) :
    a % 256 + 256 * (a / 256 % 256) + 65536 * (a / 65536 % 256) +
      16777216 * (a / 16777216 % 256) = a % 4294967296 := by
  omega

lemma readLE32_le32 (d : Nat) (X : List Nat) : readLE32 (le32 d ++ X) 0 = d % 4294967296 := by
  have h0 : byteAt (le32 d ++ X) 0 = d % 256 := rfl
  have h1 : byteAt (le32 d ++ X) 1 = d / 256 % 256 := rfl
  have h2 : byteAt (le32 d ++ X) 2 = d / 65536 % 256 := rfl
  have h3 : byteAt (le32 d ++ X) 3 = d / 16777216 % 256 := rfl
  unfold readLE32
  rw [show (0 : Nat) + 1 = 1 from rfl, show (0 : Nat) + 2 = 2 from rfl,
      show (0 : Nat) + 3 = 3 from rfl, h0, h1, h2, h3, mod32_decomp]

lemma tbhHeader_length (p : List Nat) (e clsid nDims : Nat) :
    (tbhHeader p e clsid nDims).length = 36 := rfl

lemma flatten_le32_length (dims : List Nat) :
    ((dims.map le32).flatten).length = 4 * dims.length := by
  induction dims with
  | nil => rfl
  | cons d rest ih =>
    simp [le32, ih]
    omega

/-- Reading dimension `j` back out of the serialized dimension block. -/
lemma readLE32_dims (dims : List Nat) (tail : List Nat) (j : Nat)
    (hj : j < dims.length) (hd : ∀ d ∈ dims, d < 4294967296) :
    readLE32 ((dims.map le32).flatten ++ tail) (4 * j) = dims.getD j 0 := by
  induction dims generalizing j tail with
  | nil => simp at hj
  | cons d rest ih =>
    have hflat : ((d :: rest).map le32).flatten ++ tail
        = le32 d ++ ((rest.map le32).flatten ++ tail) := by
      simp
    rw [hflat]
    cases j with
    | zero =>
      rw [show 4 * 0 = 0 by omega, readLE32_le32,
          Nat.mod_eq_of_lt (hd d (by simp))]
      rfl
    | succ j =>
      have hlen : (le32 d).length = 4 := rfl
      rw [show 4 * (j + 1) = (le32 d).length + 4 * j by rw [hlen]; omega,
          readLE32_prefix_skip, ih _ _ (by simpa using hj)
            (fun x hx => hd x (by simp [hx]))]
      rfl

lemma range_map_getD (l : List Nat) :
    (List.range l.length).map (fun j => l.getD j 0) = l := by
  induction l with
  | nil => rfl
  | cons d rest ih =>
    rw [show (d :: rest).length = rest.length + 1 by rfl, List.range_succ_eq_map,
        List.map_cons, List.map_map]
    have hcomp : (fun j => (d :: rest).getD j 0) ∘ Nat.succ = fun j => rest.getD j 0 := by
      funext a
      simp [List.getD_cons_succ]
    rw [List.getD_cons_zero, hcomp, ih]

/-- From a successful `tbhSupported` check the class id is bounded. -/
lemma tbhSupported_lt (c : Nat) (h : tbhSupported c = true) : c < 16 := by
  simp only [tbhSupported, mxLOGICAL, mxCHAR, mxDOUBLE, mxSINGLE, mxINT8, mxUINT8,
    mxINT16, mxUINT16, mxINT32, mxUINT32, mxINT64, mxUINT64,
    decide_eq_true_eq] at h
  omega

/-! ### The typed-BLOB round trip -/

/-- Decoding any blob with an encoder-shaped header: all header fields read
back, and the outcome only depends on the size check. -/
lemma tblobDecode_generic (p : List Nat) (e clsid : Nat) (dims data : List Nat)
    (hsup : tbhSupported clsid = true)
    (hn : dims.length < 2 ^ 31)
    (hd : ∀ d ∈ dims, d < 2 ^ 31) :
    tblobDecode (tbhHeader p e clsid dims.length ++ ((dims.map le32).flatten ++ data))
      = if (data.length : Int) ≠ (dims.prod * elementSize clsid : Nat)
          then .error .sizeMismatch
        else .ok (clsid, dims, data) := by
  set blob := tbhHeader p e clsid dims.length ++ ((dims.map le32).flatten ++ data)
    with hblob
  have hver : readLE16 blob 14 = 36 := rfl
  have hcl : tblobClsid blob = clsid := by
    have h16 : byteAt blob 16 = clsid % 256 := rfl
    have h17 : byteAt blob 17 = clsid / 256 % 256 := rfl
    have h18 : byteAt blob 18 = clsid / 65536 % 256 := rfl
    have h19 : byteAt blob 19 = clsid / 16777216 % 256 := rfl
    unfold tblobClsid readLE32
    rw [show (16 : Nat) + 1 = 17 from rfl, show (16 : Nat) + 2 = 18 from rfl,
        show (16 : Nat) + 3 = 19 from rfl, h16, h17, h18, h19, mod32_decomp,
        Nat.mod_eq_of_lt (by have := tbhSupported_lt clsid hsup; omega)]
  have hnd : tblobNDims blob = dims.length := by
    have h32 : byteAt blob 32 = dims.length % 256 := rfl
    have h33 : byteAt blob 33 = dims.length / 256 % 256 := rfl
    have h34 : byteAt blob 34 = dims.length / 65536 % 256 := rfl
    have h35 : byteAt blob 35 = dims.length / 16777216 % 256 := rfl
    unfold tblobNDims readLE32
    rw [show (32 : Nat) + 1 = 33 from rfl, show (32 : Nat) + 2 = 34 from rfl,
        show (32 : Nat) + 3 = 35 from rfl, h32, h33, h34, h35, mod32_decomp,
        Nat.mod_eq_of_lt (by omega)]
  have hdims : tblobDims blob = dims := by
    unfold tblobDims
    rw [hnd, List.map_congr_left (g := fun j => dims.getD j 0), range_map_getD]
    intro j hj
    rw [List.mem_range] at hj
    rw [hblob, show (36 : Nat) + 4 * j
          = (tbhHeader p e clsid dims.length).length + 4 * j by
            rw [tbhHeader_length],
        readLE32_prefix_skip,
        readLE32_dims dims data j hj (fun x hx => by have := hd x hx; omega)]
  have hmagic : magicOf blob = tbhMagic := rfl
  have hblen : blob.length = 36 + 4 * dims.length + data.length := by
    rw [hblob, List.length_append, List.length_append, tbhHeader_length,
        flatten_le32_length]
    omega
  have hdrop : blob.drop (tbhDataStart dims.length) = data := by
    rw [hblob, tbhDataStart, show (36 : Nat) + 4 * dims.length
          = (tbhHeader p e clsid dims.length).length + ((dims.map le32).flatten).length by
            rw [tbhHeader_length, flatten_le32_length],
        ← List.drop_drop, List.drop_left, List.drop_left]
  have hsz : tblobSizeBlob blob = (data.length : Int) := by
    unfold tblobSizeBlob
    rw [hnd, hblen, tbhDataStart]
    push_cast
    omega
  unfold tblobDecode
  rw [if_neg (by rw [hver]; simp [tbhVersion]),
      if_neg (by rw [hmagic]; simp),
      if_neg (by rw [hcl]; simp [hsup]),
      hsz, hcl, hdims, hnd, hdrop]

/-- Decoding an encoder-built blob whose payload length matches the
declared dimensions recovers the class id, the dimensions and the payload
verbatim. -/
lemma tblobDecode_header (p : List Nat) (e clsid : Nat) (dims data : List Nat)
    (hsup : tbhSupported clsid = true)
    (hn : dims.length < 2 ^ 31)
    (hd : ∀ d ∈ dims, d < 2 ^ 31)
    (hlen : data.length = dims.prod * elementSize clsid) :
    tblobDecode (tbhHeader p e clsid dims.length ++ ((dims.map le32).flatten ++ data))
      = .ok (clsid, dims, data) := by
  rw [tblobDecode_generic p e clsid dims data hsup hn hd,
      if_neg (by rw [hlen]; simp)]

/-- Inverting a successful encode: the class is supported and the blob has
the header-dims-payload shape. -/
lemma tblobEncode_ok (p : List Nat) (e clsid : Nat) (dims data blob : List Nat)
    (h : tblobEncode p e clsid dims data = .ok blob) :
    tbhSupported clsid = true ∧
      blob = tbhHeader p e clsid dims.length ++ ((dims.map le32).flatten ++ data) := by
  unfold tblobEncode at h
  split_ifs at h with h1 h2
  exact ⟨h2, by rw [← Except.ok.inj h, List.append_assoc]⟩

/-- A successful encode also passed the size bound. -/
lemma tblobEncode_ok_size (p : List Nat) (e clsid : Nat) (dims data blob : List Nat)
    (h : tblobEncode p e clsid dims data = .ok blob) :
    sizeBlobC dims.length (dims.prod * elementSize clsid) ≤ mqMaxBlobSize := by
  unfold tblobEncode at h
  split_ifs at h with h1 h2
  omega

/-! ### Header corruption lemmas -/

lemma byteAt_set_ne (l : List Nat) (i j c : Nat) (h : i ≠ j) :
    byteAt (l.set i c) j = byteAt l j := by
  rw [byteAt_eq_getD, byteAt_eq_getD, List.getD_eq_getElem?_getD,
      List.getD_eq_getElem?_getD, List.getElem?_set_ne h]

lemma byteAt_set_self (l : List Nat) (i c : Nat) (h : i < l.length) :
    byteAt (l.set i c) i = c := by
  rw [byteAt_eq_getD, List.getD_eq_getElem?_getD, List.getElem?_set_self h]
  rfl

lemma magicOf_getD (blob : List Nat) (i : Nat) (h : i < 12) :
    (magicOf blob).getD i 0 = byteAt blob i := by
  rw [magicOf, List.getD_eq_getElem?_getD, List.getElem?_map,
      List.getElem?_range h]
  rfl

/-- The decoder reports `badMagic` whenever the version field is intact but
the twelve compared magic characters differ (line 1383). -/
lemma tblobDecode_badMagic (blob : List Nat)
    (h1 : readLE16 blob 14 = tbhVersion) (h2 : magicOf blob ≠ tbhMagic) :
    tblobDecode blob = .error .badMagic := by
  unfold tblobDecode
  rw [if_neg (by rw [h1]; simp), if_pos h2]

/-- The decoder reports `unsupportedVersion` whenever the stored
header-size field differs from `sizeof(typed_BLOB_header)` (line 1361). -/
lemma tblobDecode_badVersion (blob : List Nat)
    (h : readLE16 blob 14 ≠ tbhVersion) :
    tblobDecode blob = .error .unsupportedVersion := by
  unfold tblobDecode
  rw [if_pos h]

/-- Mutating any single byte of the stored twelve magic characters of an
encoder-built blob makes the decoder fail with `badMagic`. -/
lemma tblobDecode_magicFlip (p : List Nat) (e clsid : Nat)
    (dims data blob : List Nat) (i c : Nat)
    (henc : tblobEncode p e clsid dims data = .ok blob)
    (hi : i < 12) (hc : c ≠ byteAt blob i) :
    tblobDecode (blob.set i c) = .error .badMagic := by
  obtain ⟨hsup, rfl⟩ := tblobEncode_ok p e clsid dims data blob henc
  set blob := tbhHeader p e clsid dims.length ++ ((dims.map le32).flatten ++ data)
    with hblob
  have hmagic : magicOf blob = tbhMagic := rfl
  have hlen : 12 ≤ blob.length := by
    rw [hblob, List.length_append, tbhHeader_length]
    omega
  apply tblobDecode_badMagic
  · unfold readLE16
    rw [byteAt_set_ne blob i 14 c (by omega), byteAt_set_ne blob i 15 c (by omega)]
    rfl
  · intro hEq
    have hgot : (magicOf (blob.set i c)).getD i 0 = tbhMagic.getD i 0 := by
      rw [hEq]
    rw [magicOf_getD _ i hi, byteAt_set_self blob i c (by omega), ← hmagic,
        magicOf_getD _ i hi] at hgot
    exact hc hgot

/-- Truncating the payload of an encoder-built blob by one byte makes the
decoder fail with `sizeMismatch` (line 1409). -/
lemma tblobDecode_truncated (p : List Nat) (e clsid : Nat)
    (dims data blob : List Nat)
    (henc : tblobEncode p e clsid dims data = .ok blob)
    (hn : dims.length < 2 ^ 31)
    (hd : ∀ d ∈ dims, d < 2 ^ 31)
    (hlen : data.length = dims.prod * elementSize clsid)
    (hpos : 0 < data.length) :
    tblobDecode blob.dropLast = .error .sizeMismatch := by
  obtain ⟨hsup, rfl⟩ := tblobEncode_ok p e clsid dims data blob henc
  have hdata : data ≠ [] := by
    intro h
    rw [h] at hpos
    simp at hpos
  have hstep : (tbhHeader p e clsid dims.length ++
        ((dims.map le32).flatten ++ data)).dropLast
      = tbhHeader p e clsid dims.length ++ ((dims.map le32).flatten ++ data.dropLast) := by
    rw [List.dropLast_append, List.dropLast_append]
    simp [hdata]
  rw [hstep, tblobDecode_generic p e clsid dims data.dropLast hsup hn hd,
      if_pos (by
        rw [List.length_dropLast, ← hlen]
        push_cast [Nat.cast_sub (by omega : 1 ≤ data.length)]
        omega)]

/-! ### Parameter binder lemmas -/

lemma bindArg_empty (cfg : Config) : bindArg cfg (MxArg.base emptyBase) = .ok .null := rfl

lemma collectParams_nil (count : Nat) :
    collectParams count [] = .ok (List.replicate count (MxArg.base emptyBase)) := by
  unfold collectParams
  rw [if_neg (by simp)]

lemma collectParams_base (count : Nat) (b : MxBase) (rest : List MxArg)
    (hc : 0 < count) :
    collectParams count (MxArg.base b :: rest) =
      if count < (MxArg.base b :: rest).length then .error .unexpectedArgs
      else .ok ((MxArg.base b :: rest) ++
        List.replicate (count - (MxArg.base b :: rest).length)
          (MxArg.base emptyBase)) := by
  unfold collectParams
  rw [if_neg (by omega)]

lemma collectParams_cell (count : Nat) (items : List MxBase) (rest : List MxArg)
    (hc : 0 < count) :
    collectParams count (MxArg.cell items :: rest) =
      if 0 < rest.length then .error .unexpectedArgs
      else .ok (items.map MxArg.base) := by
  unfold collectParams
  rw [if_neg (by omega)]

lemma bindSlots_succ (cfg : Config) (n : Nat) (params : List MxArg) :
    bindSlots cfg (n + 1) params =
      match bindArg cfg (params.headD (MxArg.base emptyBase)) with
      | .error msg => .error msg
      | .ok s =>
        match bindSlots cfg n params.tail with
        | .error msg => .error msg
        | .ok rest => .ok (s :: rest) := by
  rw [bindSlots.eq_def]

/-- The per-slot loop succeeds when every collected value binds, produces
one slot per placeholder, and every slot whose collected value is the
empty placeholder (missing argument) is bound as NULL. -/
lemma bindSlots_ok (cfg : Config) (n : Nat) (params : List MxArg)
    (h : ∀ a ∈ params, (bindArg cfg a).isOk = true) :
    ∃ slots, bindSlots cfg n params = .ok slots ∧ slots.length = n ∧
      ∀ i, i < n → params.getD i (MxArg.base emptyBase) = MxArg.base emptyBase →
        slots.getD i (Slot.int 0) = .null := by
  induction n generalizing params with
  | zero => exact ⟨[], rfl, rfl, fun i hi => absurd hi (by omega)⟩
  | succ n ih =>
    cases params with
    | nil =>
      obtain ⟨slots, h1, h2, h3⟩ := ih [] (by simp)
      refine ⟨.null :: slots, ?_, by simp [h2], ?_⟩
      · rw [bindSlots_succ]
        simp only [List.headD_nil, bindArg_empty, List.tail_nil, h1]
      · intro i hi hdef
        cases i with
        | zero => rfl
        | succ i =>
          rw [List.getD_cons_succ]
          exact h3 i (by omega) rfl
    | cons a rest =>
      have ha := h a (by simp)
      obtain ⟨slots, h1, h2, h3⟩ := ih rest (fun x hx => h x (by simp [hx]))
      cases hbind : bindArg cfg a with
      | error msg => rw [hbind] at ha; simp [Except.isOk, Except.toBool] at ha
      | ok s =>
        refine ⟨s :: slots, ?_, by simp [h2], ?_⟩
        · rw [bindSlots_succ]
          simp only [List.headD_cons, hbind, List.tail_cons, h1]
        · intro i hi hdef
          cases i with
          | zero =>
            rw [List.getD_cons_zero] at hdef
            rw [hdef, bindArg_empty] at hbind
            rw [List.getD_cons_zero, ← Except.ok.inj hbind]
          | succ i =>
            rw [List.getD_cons_succ] at hdef
            rw [List.getD_cons_succ]
            exact h3 i (by omega) hdef

/-- Decoding ignores the byte at offset 12 (the stored magic terminator):
the version field sits at offsets 14-15, the compared magic characters at
offsets 0-11, all other reads at offsets 16 and beyond. -/
lemma tblobDecode_set12 (l : List Nat) (c : Nat) :
    tblobDecode (l.set 12 c) = tblobDecode l := by
  have hb : ∀ j, j ≠ 12 → byteAt (l.set 12 c) j = byteAt l j :=
    fun j hj => byteAt_set_ne l 12 j c (fun h => hj h.symm)
  have hver : readLE16 (l.set 12 c) 14 = readLE16 l 14 := by
    unfold readLE16
    rw [hb 14 (by omega), hb 15 (by omega)]
  have hcl : tblobClsid (l.set 12 c) = tblobClsid l := by
    unfold tblobClsid readLE32
    rw [hb 16 (by omega), hb 17 (by omega), hb 18 (by omega), hb 19 (by omega)]
  have hnd : tblobNDims (l.set 12 c) = tblobNDims l := by
    unfold tblobNDims readLE32
    rw [hb 32 (by omega), hb 33 (by omega), hb 34 (by omega), hb 35 (by omega)]
  have hdims : tblobDims (l.set 12 c) = tblobDims l := by
    unfold tblobDims
    rw [hnd]
    exact List.map_congr_left (fun j _ => by
      unfold readLE32
      rw [hb (36 + 4 * j) (by omega), hb (36 + 4 * j + 1) (by omega),
          hb (36 + 4 * j + 2) (by omega), hb (36 + 4 * j + 3) (by omega)])
  have hmg : magicOf (l.set 12 c) = magicOf l := by
    unfold magicOf
    exact List.map_congr_left (fun j hj =>
      hb j (by rw [List.mem_range] at hj; omega))
  have hsz : tblobSizeBlob (l.set 12 c) = tblobSizeBlob l := by
    unfold tblobSizeBlob
    rw [List.length_set, hnd]
  have hdrop : (l.set 12 c).drop (tbhDataStart (tblobNDims l))
      = l.drop (tbhDataStart (tblobNDims l)) := by
    rw [List.drop_set, if_pos (by unfold tbhDataStart; omega)]
  unfold tblobDecode
  rw [hver, hcl, hnd, hdims, hmg, hsz, hdrop]

/-! ## Claims -/

/-- C1.  Typed-BLOB round-trip: for every supported element type id, every
dimension vector (of `int32`-representable sizes), and every payload
buffer whose length equals the dimension vector's element count times the
element size, decoding the blob produced by the encoder yields back
exactly the same element type id, the same dimension vector, and the same
payload bytes; no byte-swapping or other transformation is applied in
either direction (the payload is appended and copied back verbatim). -/
theorem typedBlob_roundtrip (p : List Nat) (e clsid : Nat)
    (dims data blob : List Nat)
    (henc : tblobEncode p e clsid dims data = .ok blob)
    (hn : dims.length < 2 ^ 31)
    (hd : ∀ d ∈ dims, d < 2 ^ 31)
    (hlen : data.length = dims.prod * elementSize clsid) :
    tblobDecode blob = .ok (clsid, dims, data) := by
  obtain ⟨hsup, rfl⟩ := tblobEncode_ok p e clsid dims data blob henc
  exact tblobDecode_header p e clsid dims data hsup hn hd hlen

theorem typedBlob_roundtrip_witness :
    tblobDecode blobW = .ok (9, [2, 3], [1, 2, 3, 4, 5, 6]) :=
  typedBlob_roundtrip [71, 76, 78, 88, 65, 54, 52] 76 9 [2, 3] [1, 2, 3, 4, 5, 6]
    blobW (by decide) (by decide) (by decide) (by decide)

/-- C2.  Typed-BLOB decode integrity errors: a version field different
from the decoder's compiled header size fails with `unsupportedVersion`
(this check runs first); with an intact version field, any difference in
the twelve compared magic characters fails with `badMagic` — in
particular flipping any single one of the twelve magic-tag bytes of a
valid encoder output; and truncating the payload of a valid encoder
output by one byte fails with `sizeMismatch`, since the declared
element count times element size no longer equals the payload length
present. -/
theorem typedBlob_decode_integrity :
    (∀ blob, readLE16 blob 14 ≠ tbhVersion →
        tblobDecode blob = .error .unsupportedVersion) ∧
    (∀ blob, readLE16 blob 14 = tbhVersion → magicOf blob ≠ tbhMagic →
        tblobDecode blob = .error .badMagic) ∧
    (∀ p e clsid dims data blob i c,
        tblobEncode p e clsid dims data = .ok blob → i < 12 →
        c ≠ byteAt blob i →
        tblobDecode (blob.set i c) = .error .badMagic) ∧
    (∀ p e clsid dims data blob,
        tblobEncode p e clsid dims data = .ok blob →
        dims.length < 2 ^ 31 → (∀ d ∈ dims, d < 2 ^ 31) →
        data.length = dims.prod * elementSize clsid → 0 < data.length →
        tblobDecode blob.dropLast = .error .sizeMismatch) :=
  ⟨tblobDecode_badVersion, tblobDecode_badMagic, tblobDecode_magicFlip,
   tblobDecode_truncated⟩

theorem typedBlob_decode_integrity_witness :
    tblobDecode [] = .error .unsupportedVersion ∧
    tblobDecode [0, 0, 0, 0, 0, 0, 0, 0, 0, 0, 0, 0, 0, 0, 36, 0] = .error .badMagic ∧
    tblobDecode (blobW.set 0 42) = .error .badMagic ∧
    tblobDecode blobW.dropLast = .error .sizeMismatch :=
  ⟨typedBlob_decode_integrity.1 [] (by decide),
   typedBlob_decode_integrity.2.1 [0, 0, 0, 0, 0, 0, 0, 0, 0, 0, 0, 0, 0, 0, 36, 0]
     (by decide) (by decide),
   typedBlob_decode_integrity.2.2.1 [71, 76, 78, 88, 65, 54, 52] 76 9 [2, 3]
     [1, 2, 3, 4, 5, 6] blobW 0 42 (by decide) (by decide) (by decide),
   typedBlob_decode_integrity.2.2.2 [71, 76, 78, 88, 65, 54, 52] 76 9 [2, 3]
     [1, 2, 3, 4, 5, 6] blobW (by decide) (by decide) (by decide) (by decide)
     (by decide)⟩

/-- C3.  Charset round-trip: encoding a terminator-free byte sequence
with `latin2utf` and decoding with `utf2latin` restores it; bytes < 128
pass through unchanged, a byte `b ≥ 128` encodes to the pair
`128+64+(b>>6)`, `128+(b&63)`, and a 2-byte pair decodes to the single
byte `(lead<<6)|(cont&63)` (stored into an `unsigned char`, hence
truncated to a byte). -/
theorem charset_roundtrip (l : List Nat) (hl : bytesOk l) (b lead cont : Nat) :
    utf2latin (latin2utf l) = l ∧
    (b < 128 → latin2utf [b] = [b]) ∧
    (128 ≤ b → b < 256 → latin2utf [b] = [128 + 64 + (b >>> 6), 128 + (b &&& 63)]) ∧
    (128 ≤ lead →
      utf2latin [lead, cont] = [((lead <<< 6) ||| (cont &&& 63)) % 256]) := by
  refine ⟨utf2latin_latin2utf l (fun x hx => (hl x hx).2), ?_, ?_, ?_⟩
  · intro hb
    rw [latin2utf_lt b [] hb]
    rfl
  · intro hb1 hb2
    rw [latin2utf_ge b [] (by omega)]
    rfl
  · intro hlead
    rw [utf2latin_geTwo lead cont [] (by omega)]
    rfl

theorem charset_roundtrip_witness :
    utf2latin (latin2utf [77, 65, 200, 255]) = [77, 65, 200, 255] :=
  (charset_roundtrip [77, 65, 200, 255] (by decide) 0 0 0).1

/-- C4, counterexample.  The claim says the returned length does not count
the null terminator.  On the code it does: both conversion functions
increment `cnt` once more for the terminator written after the loop, and
their callers allocate exactly the returned number of bytes.  For the
one-character input "A" the returned length is 2 while the content length
is 1. -/
theorem charset_length_claim_counterexample :
    utf2latinCnt [65] = 2 ∧ (utf2latin [65]).length = 1 ∧
    latin2utfCnt [65] = 2 ∧ (latin2utf [65]).length = 1 ∧
    utf2latinCnt [65] ≠ (utf2latin [65]).length ∧
    latin2utfCnt [65] ≠ (latin2utf [65]).length := by
  decide

/-- C4, amended.  Charset codec length protocol: for every terminator-free
byte string (well-formed on the UTF-8 side), calling either conversion
function with no destination buffer returns the exact required output
size, which counts the converted bytes plus the null terminator; a second
call with a buffer of that size fills it completely, the terminator
occupying the final byte. -/
theorem charset_length_protocol (l : List Nat) (hb : bytesOk l)
    (hu : utfOk l = true) :
    utf2latinCnt l = (utf2latin l).length + 1 ∧
    utf2latinOut l = utf2latin l ++ [0] ∧
    (utf2latinOut l).length = utf2latinCnt l ∧
    latin2utfCnt l = (latin2utf l).length + 1 ∧
    latin2utfOut l = latin2utf l ++ [0] ∧
    (latin2utfOut l).length = latin2utfCnt l := by
  refine ⟨utf2latinCnt_spec l, utf2latinOut_spec l, ?_,
    latin2utfCnt_spec l, latin2utfOut_spec l, ?_⟩
  · rw [utf2latinOut_spec l, utf2latinCnt_spec l]
    simp
  · rw [latin2utfOut_spec l, latin2utfCnt_spec l]
    simp

theorem charset_length_protocol_witness :
    utf2latinCnt [195, 164] = (utf2latin [195, 164]).length + 1 ∧
    utf2latinOut [195, 164] = utf2latin [195, 164] ++ [0] ∧
    (utf2latinOut [195, 164]).length = utf2latinCnt [195, 164] ∧
    latin2utfCnt [195, 164] = (latin2utf [195, 164]).length + 1 ∧
    latin2utfOut [195, 164] = latin2utf [195, 164] ++ [0] ∧
    (latin2utfOut [195, 164]).length = latin2utfCnt [195, 164] :=
  charset_length_protocol [195, 164] (by decide) (by decide)

/-- C7.  Oversized blob bound: whenever the computed total blob size
(`TBH_DATA_OFFSET(nDims)` plus element count times element size, in
`mwSize` arithmetic) exceeds `MQSQLITE_MAX_BLOB_SIZE`, encoding fails
with `blobTooBig` (the size check runs before anything else); at or
below the bound encoding succeeds for every supported class.  The same
holds for the binder's typed-blob path. -/
theorem oversized_blob_bound (p : List Nat) (e clsid : Nat)
    (dims data : List Nat) (cfg : Config) (b : MxBase) :
    (mqMaxBlobSize < sizeBlobC dims.length (dims.prod * elementSize clsid) →
        tblobEncode p e clsid dims data = .error .blobTooBig) ∧
    (sizeBlobC dims.length (dims.prod * elementSize clsid) ≤ mqMaxBlobSize →
        tbhSupported clsid = true →
        (tblobEncode p e clsid dims data).isOk = true) ∧
    (cfg.useTypedBlobs = true → 1 < b.numel → b.clsid ≠ mxCHAR →
        b.complex = false → b.clsid ≠ mxCELL → b.clsid ≠ mxSTRUCT →
        mqMaxBlobSize < sizeBlobC b.dims.length (b.numel * elementSize b.clsid) →
        bindArg cfg (.base b) = .error .blobTooBig) := by
  refine ⟨?_, ?_, ?_⟩
  · intro h
    unfold tblobEncode
    rw [if_pos h]
  · intro h hsup
    unfold tblobEncode
    rw [if_neg (by omega), if_neg (by simp [hsup])]
    rfl
  · intro htb hnumel hchar hcx hcell hstruct hover
    have hover2 : mqMaxBlobSize
        < sizeBlobC b.dims.length (b.dims.prod * elementSize b.clsid) := hover
    rw [bindArg.eq_def]
    simp only []
    rw [if_neg (by omega),
        if_neg (by simp [hcx, hcell, hstruct]),
        if_pos ⟨hnumel, hchar⟩,
        if_neg (by simp [htb])]
    unfold tblobEncode
    rw [if_pos hover2]

theorem oversized_blob_bound_witness :
    (tblobEncode [] 76 9 [1, 1073741779] []).isOk = true ∧
    tblobEncode [] 76 9 [1, 1073741780] [] = .error .blobTooBig :=
  ⟨(oversized_blob_bound [] 76 9 [1, 1073741779] []
      ⟨false, true, [], 76⟩ emptyBase).2.1 (by decide) (by decide),
   (oversized_blob_bound [] 76 9 [1, 1073741780] []
      ⟨false, true, [], 76⟩ emptyBase).1 (by decide)⟩

/-- C10.  The decoder's magic comparison covers only the
`strlen(TBH_MAGIC)` = 12 characters, not the stored terminator at header
offset 12: an encoder output carries 0 there, and overwriting that byte
with anything still decodes successfully to the same result. -/
theorem magic_terminator_byte_ignored (p : List Nat) (e clsid : Nat)
    (dims data blob : List Nat) (c : Nat)
    (henc : tblobEncode p e clsid dims data = .ok blob)
    (hn : dims.length < 2 ^ 31)
    (hd : ∀ d ∈ dims, d < 2 ^ 31)
    (hlen : data.length = dims.prod * elementSize clsid) :
    byteAt blob 12 = 0 ∧ tblobDecode (blob.set 12 c) = .ok (clsid, dims, data) := by
  obtain ⟨hsup, rfl⟩ := tblobEncode_ok p e clsid dims data blob henc
  refine ⟨rfl, ?_⟩
  rw [tblobDecode_set12]
  exact tblobDecode_header p e clsid dims data hsup hn hd hlen

theorem magic_terminator_byte_ignored_witness :
    byteAt blobW 12 = 0 ∧
    tblobDecode (blobW.set 12 99) = .ok (9, [2, 3], [1, 2, 3, 4, 5, 6]) :=
  magic_terminator_byte_ignored [71, 76, 78, 88, 65, 54, 52] 76 9 [2, 3]
    [1, 2, 3, 4, 5, 6] blobW 99 (by decide) (by decide) (by decide) (by decide)

/-- C5, counterexample.  The claim says every integer-class scalar binds
as an integer, but the scalar `switch` (lines 1067-1122) has no
`mxINT64_CLASS`/`mxUINT64_CLASS` cases: a scalar int64 value falls
through to `default:` and fails the whole call with `MSG_INVALIDARG`,
not an integer bind. -/
theorem scalar_dispatch_counterexample :
    bindArg ⟨false, true, [], 76⟩
        (.base ⟨mxINT64, [1, 1], false, [], [], 5⟩) = .error .invalidArg ∧
    (Except.error .invalidArg : Except MkErr Slot) ≠ .ok (.int 5) := by
  decide

/-- C5, amended.  Scalar parameter dispatch for non-complex single-element
values: boolean and the 8/16/32-bit integer classes bind as an integer
(through the native `int` cast of `mxGetScalar`); the 64-bit integer
classes are missing from the scalar switch and fail with `invalidArg`;
single- and double-precision classes bind as floating point; char values
bind as text, charset-encoded first when conversion is enabled; cell and
struct scalars fail earlier with `unsupportedType`; any other class
falls to the switch default and fails with `invalidArg`. -/
theorem scalar_dispatch (cfg : Config) (b : MxBase)
    (hscalar : b.numel = 1) (hcx : b.complex = false) :
    (scalarIntClass b.clsid = true → bindArg cfg (.base b) = .ok (.int b.val)) ∧
    (b.clsid = mxDOUBLE ∨ b.clsid = mxSINGLE → bindArg cfg (.base b) = .ok .real) ∧
    (b.clsid = mxCHAR → bindArg cfg (.base b)
        = .ok (.text (if cfg.convertUTF8 then latin2utf b.text else b.text))) ∧
    (b.clsid = mxINT64 ∨ b.clsid = mxUINT64 →
        bindArg cfg (.base b) = .error .invalidArg) ∧
    (b.clsid = mxCELL ∨ b.clsid = mxSTRUCT →
        bindArg cfg (.base b) = .error .unsupportedType) ∧
    (scalarIntClass b.clsid = false → b.clsid ≠ mxDOUBLE → b.clsid ≠ mxSINGLE →
        b.clsid ≠ mxCHAR → b.clsid ≠ mxCELL → b.clsid ≠ mxSTRUCT →
        bindArg cfg (.base b) = .error .invalidArg) := by
  have hne0 : ¬b.numel = 0 := by omega
  have hnm : ¬(1 < b.numel ∧ ¬b.clsid = mxCHAR) := by
    rintro ⟨h1, _⟩
    omega
  refine ⟨?_, ?_, ?_, ?_, ?_, ?_⟩
  · intro hint
    have hcls : b.clsid ≠ mxCELL ∧ b.clsid ≠ mxSTRUCT := by
      simp only [scalarIntClass, mxLOGICAL, mxINT8, mxUINT8, mxINT16, mxINT32,
        mxUINT16, mxUINT32, decide_eq_true_eq] at hint
      unfold mxCELL mxSTRUCT
      omega
    rw [bindArg.eq_def]
    simp only []
    rw [if_neg hne0, if_neg (by simp [hcx, hcls.1, hcls.2]), if_neg hnm,
        if_pos hint]
  · intro hfl
    have hcls : b.clsid = 6 ∨ b.clsid = 7 := by
      unfold mxDOUBLE mxSINGLE at hfl
      omega
    have hint : ¬scalarIntClass b.clsid = true := by
      simp only [scalarIntClass, mxLOGICAL, mxINT8, mxUINT8, mxINT16, mxINT32,
        mxUINT16, mxUINT32, decide_eq_true_eq]
      omega
    rw [bindArg.eq_def]
    simp only []
    rw [if_neg hne0,
        if_neg (by simp [hcx]; unfold mxCELL mxSTRUCT; omega),
        if_neg hnm, if_neg hint, if_pos hfl]
  · intro hch
    have hcls : b.clsid = 4 := by unfold mxCHAR at hch; omega
    have hint : ¬scalarIntClass b.clsid = true := by
      simp only [scalarIntClass, mxLOGICAL, mxINT8, mxUINT8, mxINT16, mxINT32,
        mxUINT16, mxUINT32, decide_eq_true_eq]
      omega
    rw [bindArg.eq_def]
    simp only []
    rw [if_neg hne0,
        if_neg (by simp [hcx]; unfold mxCELL mxSTRUCT; omega),
        if_neg hnm, if_neg hint,
        if_neg (by unfold mxDOUBLE mxSINGLE; omega), if_pos hch]
  · intro h64
    have hcls : b.clsid = 14 ∨ b.clsid = 15 := by
      unfold mxINT64 mxUINT64 at h64
      omega
    have hint : ¬scalarIntClass b.clsid = true := by
      simp only [scalarIntClass, mxLOGICAL, mxINT8, mxUINT8, mxINT16, mxINT32,
        mxUINT16, mxUINT32, decide_eq_true_eq]
      omega
    rw [bindArg.eq_def]
    simp only []
    rw [if_neg hne0,
        if_neg (by simp [hcx]; unfold mxCELL mxSTRUCT; omega),
        if_neg hnm, if_neg hint,
        if_neg (by unfold mxDOUBLE mxSINGLE; omega),
        if_neg (by unfold mxCHAR; omega)]
  · intro hcs
    rw [bindArg.eq_def]
    simp only []
    rw [if_neg hne0, if_pos (by tauto)]
  · intro hint hd hs hch hcell hstruct
    rw [bindArg.eq_def]
    simp only []
    rw [if_neg hne0, if_neg (by simp [hcx, hcell, hstruct]), if_neg hnm,
        if_neg (by simp [hint]), if_neg (by tauto), if_neg hch]

theorem scalar_dispatch_witness :
    bindArg ⟨false, true, [], 76⟩
        (.base ⟨mxINT32, [1, 1], false, [], [], 7⟩) = .ok (.int 7) :=
  (scalar_dispatch ⟨false, true, [], 76⟩ ⟨mxINT32, [1, 1], false, [], [], 7⟩
    (by decide) (by decide)).1 (by decide)

/-- C6.  Parameter binding arity: a statement with zero placeholders
rejects any supplied value with `unexpectedArgs`; more positional values
than placeholders is `unexpectedArgs`; fewer positional values succeed
(when each supplied value binds) and every missing trailing slot is bound
as SQL NULL; a single wrapped cell collection is accepted, but anything
after it is `unexpectedArgs`. -/
theorem binding_arity :
    (∀ cfg args, 0 < args.length →
        bindAll cfg 0 args = .error .unexpectedArgs) ∧
    (∀ cfg count b rest, count < (MxArg.base b :: rest).length →
        bindAll cfg count (MxArg.base b :: rest) = .error .unexpectedArgs) ∧
    (∀ cfg count args, isCellArg (args.headD (MxArg.base emptyBase)) = false →
        args.length ≤ count → (∀ a ∈ args, (bindArg cfg a).isOk = true) →
        ∃ slots, bindAll cfg count args = .ok slots ∧ slots.length = count ∧
          ∀ i, args.length ≤ i → i < count → slots.getD i (Slot.int 0) = .null) ∧
    (∀ cfg count items rest, 0 < rest.length →
        bindAll cfg count (MxArg.cell items :: rest) = .error .unexpectedArgs) ∧
    (∀ cfg count items, 0 < count →
        (∀ x ∈ items, (bindArg cfg (MxArg.base x)).isOk = true) →
        (bindAll cfg count [MxArg.cell items]).isOk = true) := by
  refine ⟨?_, ?_, ?_, ?_, ?_⟩
  · intro cfg args hpos
    unfold bindAll collectParams
    rw [if_pos ⟨rfl, hpos⟩]
  · intro cfg count b rest hlt
    unfold bindAll collectParams
    rcases Nat.eq_zero_or_pos count with hc | hc
    · rw [if_pos ⟨hc, by simp⟩]
    · rw [if_neg (by omega)]
      simp only []
      rw [if_pos hlt]
  · intro cfg count args hnc hle hok
    unfold bindAll
    cases args with
    | nil =>
      rw [collectParams_nil]
      simp only []
      obtain ⟨slots, h1, h2, h3⟩ := bindSlots_ok cfg count
        (List.replicate count (MxArg.base emptyBase))
        (by
          intro a ha
          rw [List.eq_of_mem_replicate ha, bindArg_empty]
          rfl)
      refine ⟨slots, by rw [h1], h2, ?_⟩
      intro i _ hi
      refine h3 i hi ?_
      rw [List.getD_eq_getElem?_getD, List.getElem?_replicate, if_pos hi]
      rfl
    | cons a rest =>
      cases a with
      | cell items => simp [isCellArg] at hnc
      | base bb =>
        rcases Nat.eq_zero_or_pos count with hc | hc
        · exact absurd hle (by rw [hc]; simp)
        · rw [collectParams_base count bb rest hc, if_neg (by omega)]
          simp only []
          obtain ⟨slots, h1, h2, h3⟩ := bindSlots_ok cfg count
            ((MxArg.base bb :: rest) ++
              List.replicate (count - (MxArg.base bb :: rest).length)
                (MxArg.base emptyBase))
            (by
              intro x hx
              rcases List.mem_append.mp hx with hx | hx
              · exact hok x hx
              · rw [List.eq_of_mem_replicate hx, bindArg_empty]
                rfl)
          refine ⟨slots, by rw [h1], h2, ?_⟩
          intro i hge hi
          refine h3 i hi ?_
          rw [List.getD_eq_getElem?_getD,
              List.getElem?_append_right (by simpa using hge),
              List.getElem?_replicate,
              if_pos (by simp at hge ⊢; omega)]
          rfl
  · intro cfg count items rest hpos
    unfold bindAll
    rcases Nat.eq_zero_or_pos count with hc | hc
    · unfold collectParams
      rw [if_pos ⟨hc, by simp⟩]
    · rw [collectParams_cell count items rest hc, if_pos hpos]
  · intro cfg count items hc hok
    unfold bindAll
    rw [collectParams_cell count items [] hc, if_neg (by simp)]
    simp only []
    obtain ⟨slots, h1, _, _⟩ := bindSlots_ok cfg count (items.map MxArg.base)
      (by
        intro x hx
        obtain ⟨y, hy, rfl⟩ := List.mem_map.mp hx
        exact hok y hy)
    rw [h1]
    rfl

theorem binding_arity_witness :
    bindAll ⟨false, true, [], 76⟩ 2
        [MxArg.base ⟨mxDOUBLE, [1, 1], false, [], [], 0⟩,
         MxArg.base ⟨mxDOUBLE, [1, 1], false, [], [], 0⟩,
         MxArg.base ⟨mxDOUBLE, [1, 1], false, [], [], 0⟩]
      = .error .unexpectedArgs ∧
    bindAll ⟨false, true, [], 76⟩ 0
        [MxArg.base ⟨mxDOUBLE, [1, 1], false, [], [], 0⟩]
      = .error .unexpectedArgs ∧
    (∃ slots, bindAll ⟨false, true, [], 76⟩ 2
        [MxArg.base ⟨mxDOUBLE, [1, 1], false, [], [], 0⟩] = .ok slots ∧
      slots.length = 2 ∧
      ∀ i, 1 ≤ i → i < 2 → slots.getD i (Slot.int 0) = .null) ∧
    bindAll ⟨false, true, [], 76⟩ 1
        [MxArg.cell [⟨mxDOUBLE, [1, 1], false, [], [], 0⟩],
         MxArg.base ⟨mxDOUBLE, [1, 1], false, [], [], 0⟩]
      = .error .unexpectedArgs ∧
    (bindAll ⟨false, true, [], 76⟩ 1
        [MxArg.cell [⟨mxDOUBLE, [1, 1], false, [], [], 0⟩]]).isOk = true := by
  refine ⟨?_, ?_, ?_, ?_, ?_⟩
  · exact binding_arity.2.1 ⟨false, true, [], 76⟩ 2 _ _ (by decide)
  · exact binding_arity.1 ⟨false, true, [], 76⟩ _ (by decide)
  · exact binding_arity.2.2.1 ⟨false, true, [], 76⟩ 2 _ (by decide) (by decide)
      (by decide)
  · exact binding_arity.2.2.2.1 ⟨false, true, [], 76⟩ 1 _ _ (by decide)
  · exact binding_arity.2.2.2.2 ⟨false, true, [], 76⟩ 1 _ (by decide) (by decide)

/-- C8.  Duplicate field-name resolution: names are sanitized
(non-alphanumeric bytes to `_`), then for each later duplicate the
suffixes `_1`..`_99` are tried in order, each candidate checked for
uniqueness against all current names, and the first unique candidate is
assigned, so columns "a","a","a" become "a","a_1","a_2" (bytes 97, 95,
49/50); when no suffix in range is unique (`k == 100`) the name is kept
as-is and only a non-fatal warning is raised. -/
theorem duplicate_fieldname_resolution (names : List (List Nat)) (i j : Nat) :
    processColumns true [[97], [97], [97]] = [[97], [97, 95, 49], [97, 95, 50]] ∧
    processColumns true [[97, 32, 98], [120, 63, 97]]
      = [[97, 95, 98], [120, 95, 97]] ∧
    (findSuffix names (names.getD j []) = none → renameAt names i j = names) := by
  refine ⟨by decide, by decide, ?_⟩
  intro h
  unfold renameAt
  rw [h]
  split <;> rfl

theorem duplicate_fieldname_resolution_witness :
    renameAt ([[97], [97]] ++
        (List.range 99).map (fun k => candidateName [97] (k + 1))) 0 1
      = [[97], [97]] ++ (List.range 99).map (fun k => candidateName [97] (k + 1)) :=
  (duplicate_fieldname_resolution
    ([[97], [97]] ++ (List.range 99).map (fun k => candidateName [97] (k + 1)))
    0 1).2.2 (by decide)

/-- C9.  When the uniqueness-checking flag is disabled the duplicate-name
resolution step is skipped entirely: the sanitized names are returned
unchanged, duplicates included; only the sanitization still runs. -/
theorem fieldname_check_disabled (names : List (List Nat)) :
    processColumns false names = names.map sanitizeName ∧
    processColumns false [[97], [97], [97]] = [[97], [97], [97]] ∧
    processColumns false [[97, 32], [97, 32]] = [[97, 95], [97, 95]] := by
  refine ⟨rfl, by decide, by decide⟩

end Mksqlite
